import Mathlib

/-!
Verification of the AABB debug-overlay synchronizer from
`examples/3d/debug_3d_primitives.rs`.

The example registers three per-frame systems on a Bevy `App`:

* `add_aabb_debug_primitives` — spawns a visual proxy (a translucent cube)
  for every entity that has an `Aabb` but neither a `DebugPrimitive`
  back-reference nor a `DebugPrimitiveParent` marker, and marks the entity;
* `update_aabb_debug_primitives` — for every entity in the proxy query
  (`(Entity, &DebugPrimitive, &mut Transform, &mut Visibility)`), writes the
  visibility flag from `DebugPrimitivesConfig`, resolves the back-reference
  through `Query<(&Aabb, &GlobalTransform), With<DebugPrimitiveParent>>`, and
  either despawns the proxy recursively (resolution failed) or writes the
  proxy transform from the decomposed parent `GlobalTransform` and the `Aabb`;
* `toggle_visibility` — flips `DebugPrimitivesConfig.is_visible` when the
  space key was just pressed.

The embedding models the ECS world as a list of entity records with optional
components, `f32` vector data as integer triples (the pass only copies and
combines components with `+` and `*`, so the ring structure is what
matters), and a `GlobalTransform` by the scale/rotation/translation triple
that `to_scale_rotation_translation` returns.  Structural mutations performed
through `Commands` (spawns, marker inserts, recursive despawns) are deferred
in Bevy until the end of the update stage; each pass function below therefore
computes its query results against its input world and applies its command
buffer at the end, and the whole-frame function `frameCreateThenSync` applies
all command buffers only after every system of the frame has run.
-/

namespace BevyDebugPrimitives

/-- A 3-component vector (`Vec3`/`Vec3A`).  The `f32` entries are modelled as
integers: the sync pass only copies components and combines them with `+` and
`*`, so the ring structure is what matters. -/
structure V3 where
  x : ℤ
  y : ℤ
  z : ℤ
deriving DecidableEq

/-- Componentwise vector addition (`Vec3 + Vec3`). -/
def V3.add (a b : V3) : V3 := ⟨a.x + b.x, a.y + b.y, a.z + b.z⟩

/-- Componentwise vector multiplication (`Vec3 * Vec3` in glam). -/
def V3.mul (a b : V3) : V3 := ⟨a.x * b.x, a.y * b.y, a.z * b.z⟩

/-- Vector-by-scalar multiplication (`Vec3A * f32`). -/
def V3.smul (a : V3) (c : ℤ) : V3 := ⟨a.x * c, a.y * c, a.z * c⟩

/-- A quaternion (`Quat`).  The passes only move rotations around, never
combine them, so the four components are carried opaquely. -/
structure Quat where
  x : ℤ
  y : ℤ
  z : ℤ
  w : ℤ
deriving DecidableEq

/-- The identity rotation (`Quat::IDENTITY`). -/
def Quat.identity : Quat := ⟨0, 0, 0, 1⟩

/-- The `bevy::render::primitives::Aabb` component: center and half-extents
in the entity's local frame. -/
structure Aabb where
  center : V3
  halfExtents : V3
deriving DecidableEq

/-- The `Transform` component. -/
structure Transform where
  translation : V3
  rotation : Quat
  scale : V3
deriving DecidableEq

/-- `Transform::default()`: identity transform, as spawned by `PbrBundle`. -/
def Transform.default : Transform := ⟨⟨0, 0, 0⟩, Quat.identity, ⟨1, 1, 1⟩⟩

/-- The `GlobalTransform` component, represented by the decomposition that
`to_scale_rotation_translation` extracts from its affine matrix. -/
structure GlobalTransform where
  scale : V3
  rotation : Quat
  translation : V3
deriving DecidableEq

/-- `GlobalTransform::to_scale_rotation_translation`. -/
def GlobalTransform.toScaleRotationTranslation (g : GlobalTransform) : V3 × Quat × V3 :=
  (g.scale, g.rotation, g.translation)

/-- `GlobalTransform::default()`: the identity placement. -/
def GlobalTransform.default : GlobalTransform := ⟨⟨1, 1, 1⟩, Quat.identity, ⟨0, 0, 0⟩⟩

/-- The `DebugPrimitivesConfig` resource. -/
structure DebugPrimitivesConfig where
  is_visible : Bool
deriving DecidableEq

/-- `impl Default for DebugPrimitivesConfig`. -/
def DebugPrimitivesConfig.default : DebugPrimitivesConfig := ⟨true⟩

/-- One ECS entity together with the components the overlay systems read or
write.  `mesh` records whether the entity carries a `Handle<Mesh>` (the engine
later derives an `Aabb` for such entities); `debugPrimitive` is the
`DebugPrimitive(Entity)` back-reference component; `debugPrimitiveParent`
records presence of the `DebugPrimitiveParent` marker; `children` is the
`Children` component that `despawn_recursive` follows. -/
structure EntityRec where
  id : Nat
  mesh : Bool
  aabb : Option Aabb
  globalTransform : Option GlobalTransform
  transform : Option Transform
  visibility : Option Bool
  debugPrimitive : Option Nat
  debugPrimitiveParent : Bool
  children : List Nat
deriving DecidableEq

/-- Entity lookup in a component table by id. -/
def findIn : List EntityRec → Nat → Option EntityRec
  | [], _ => none
  | r :: rs, i => if r.id = i then some r else findIn rs i

/-- The ECS world: live entities, the id allocator cursor, and the
`DebugPrimitivesConfig` resource. -/
structure World where
  entities : List EntityRec
  nextId : Nat
  config : DebugPrimitivesConfig
deriving DecidableEq

/-- Entity lookup (`world.get_entity`). -/
def World.find (w : World) (i : Nat) : Option EntityRec := findIn w.entities i

/-- Whether an entity id is live. -/
def World.isLive (w : World) (i : Nat) : Bool := (w.find i).isSome

/-- The filter of `aabb_query` in `add_aabb_debug_primitives`:
`(With<Aabb>, Without<DebugPrimitive>, Without<DebugPrimitiveParent>)`. -/
def creationCandidate (r : EntityRec) : Bool :=
  r.aabb.isSome && r.debugPrimitive.isNone && !r.debugPrimitiveParent

/-- The ids matched by the creation pass query, in table order. -/
def World.candidates (w : World) : List Nat :=
  (w.entities.filter creationCandidate).map (fun r => r.id)

/-- The entity spawned for one candidate: the `PbrBundle` (mesh, default
`Transform`, default `GlobalTransform`, `Visibility`) with the subsequent
inserts — the `Visibility` override from the config, and
`DebugPrimitive(parent_entity)`.  No `Aabb` is attached at spawn time; the
engine derives one later from the mesh. -/
def spawnProxy (cfg : Bool) (pid parentId : Nat) : EntityRec :=
  { id := pid
    mesh := true
    aabb := none
    globalTransform := some GlobalTransform.default
    transform := some Transform.default
    visibility := some cfg
    debugPrimitive := some parentId
    debugPrimitiveParent := false
    children := [] }

/-- One deferred `insert(DebugPrimitiveParent)` command, applied to an entity
if it was a query candidate. -/
def markOne (cands : List Nat) (r : EntityRec) : EntityRec :=
  if r.id ∈ cands then { r with debugPrimitiveParent := true } else r

/-- Applies the deferred `insert(DebugPrimitiveParent)` commands. -/
def markParents (cands : List Nat) (es : List EntityRec) : List EntityRec :=
  es.map (markOne cands)

/-- Applies the deferred `spawn` commands: one proxy per candidate, with
consecutively allocated ids. -/
def newProxies (cfg : Bool) : Nat → List Nat → List EntityRec
  | _, [] => []
  | base, t :: ts => spawnProxy cfg base t :: newProxies cfg (base + 1) ts

/-- The creation pass `add_aabb_debug_primitives`, including the flush of its
command buffer: every query candidate gets a freshly spawned proxy carrying a
back-reference to it and the config's visibility value, and is itself marked
with `DebugPrimitiveParent`. -/
def add_aabb_debug_primitives (w : World) : World :=
  { entities :=
      markParents w.candidates w.entities ++
        newProxies w.config.is_visible w.nextId w.candidates
    nextId := w.nextId + w.candidates.length
    config := w.config }

/-- The lookup `aabb_query.get(debug_primitive.0)` performed by the sync pass:
succeeds only if the referenced entity is live, carries both an `Aabb` and a
`GlobalTransform`, and has the `DebugPrimitiveParent` marker
(`With<DebugPrimitiveParent>`). -/
def World.syncTarget (w : World) (t : Nat) : Option (Aabb × GlobalTransform) :=
  match w.find t with
  | none => none
  | some r =>
    if r.debugPrimitiveParent then
      match r.aabb, r.globalTransform with
      | some a, some g => some (a, g)
      | _, _ => none
    else none

/-- Membership in `debug_primitive_query`:
`(Entity, &DebugPrimitive, &mut Transform, &mut Visibility)`. -/
def inSyncQuery (r : EntityRec) : Bool :=
  r.debugPrimitive.isSome && r.transform.isSome && r.visibility.isSome

/-- The direct (non-deferred) component writes of one sync-pass loop
iteration: the visibility flag is set from the config before the
back-reference is resolved, and on successful resolution the proxy transform
is rebuilt from the decomposed parent `GlobalTransform` and the `Aabb`. -/
def syncWrite (cfg : Bool) (w : World) (r : EntityRec) : EntityRec :=
  if inSyncQuery r then
    match r.debugPrimitive with
    | none => r
    | some t =>
      let r1 := { r with visibility := some cfg }
      match w.syncTarget t with
      | none => r1
      | some (a, g) =>
        let tf := Transform.mk (g.translation.add a.center) g.rotation
          (g.scale.mul (a.halfExtents.smul 2))
        { r1 with transform := some tf }
  else r

/-- Whether a proxy in the sync query fails to resolve its parent, taking the
`Err(_)` branch that issues `despawn_recursive`. -/
def isOrphanProxy (w : World) (r : EntityRec) : Bool :=
  inSyncQuery r &&
    match r.debugPrimitive with
    | some t => (w.syncTarget t).isNone
    | none => false

/-- Ids of the proxies despawned by one sync pass. -/
def World.orphans (w : World) : List Nat :=
  (w.entities.filter (isOrphanProxy w)).map (fun r => r.id)

/-- Fuel-bounded traversal of the `Children` hierarchy below an entity; with
enough fuel it collects exactly the entity and its transitive children. -/
def descend (w : World) : Nat → Nat → List Nat
  | 0, e => [e]
  | fuel + 1, e =>
    e :: (match w.find e with
      | none => []
      | some r => r.children.flatMap (descend w fuel))

/-- The set of ids removed by `despawn_recursive` on each root: the roots and
all of their transitive children.  `w.nextId` overapproximates every chain
length because `Children` edges go from lower to higher ids. -/
def World.despawnSet (w : World) (roots : List Nat) : List Nat :=
  roots.flatMap (descend w w.nextId)

/-- The sync pass `update_aabb_debug_primitives`, including the flush of its
command buffer: every proxy in the query receives the direct writes of
`syncWrite`, then the deferred `despawn_recursive` commands delete every
orphan proxy together with its transitive children. -/
def update_aabb_debug_primitives (w : World) : World :=
  { entities :=
      (w.entities.map (syncWrite w.config.is_visible w)).filter
        (fun r => !((w.despawnSet w.orphans).contains r.id))
    nextId := w.nextId
    config := w.config }

/-- The per-frame state of `Input<KeyCode>` for the space key: whether it is
held down, and whether it transitioned to pressed within this frame. -/
structure KeyState where
  pressed : Bool
  just_pressed : Bool
deriving DecidableEq

/-- The toggle pass `toggle_visibility`: flips the config exactly when the
space key was just pressed this frame. -/
def toggle_visibility (k : KeyState) (w : World) : World :=
  if k.just_pressed then { w with config := ⟨!w.config.is_visible⟩ } else w

/-- One invocation of the `Update` stage with the three systems executed in
creation, sync, toggle order.  Systems apply their direct component and
resource writes as they run, but all `Commands` (proxy spawns, marker
inserts, recursive despawns) sit in command buffers that Bevy applies only
when the stage ends, so the sync query of this frame never sees the proxies
spawned by this frame's creation pass. -/
def frameCreateThenSync (k : KeyState) (w : World) : World :=
  { entities :=
      (markParents w.candidates (w.entities.map (syncWrite w.config.is_visible w))).filter
        (fun r => !((w.despawnSet w.orphans).contains r.id))
      ++ newProxies w.config.is_visible w.nextId w.candidates
    nextId := w.nextId + w.candidates.length
    config := if k.just_pressed then ⟨!w.config.is_visible⟩ else w.config }

/-! ### Lookup lemmas -/

theorem findIn_some {es : List EntityRec} {i : Nat} {r : EntityRec}
    (h : findIn es i = some r) : r ∈ es ∧ r.id = i := by
  induction es with
  | nil => simp [findIn] at h
  | cons a as ih =>
    by_cases hid : a.id = i
    · simp only [findIn, if_pos hid] at h
      injection h with h
      subst h
      exact ⟨List.mem_cons_self _ _, hid⟩
    · simp only [findIn, if_neg hid] at h
      exact ⟨List.mem_cons_of_mem a (ih h).1, (ih h).2⟩

theorem findIn_eq_none {es : List EntityRec} {i : Nat}
    (h : ∀ r ∈ es, r.id ≠ i) : findIn es i = none := by
  induction es with
  | nil => rfl
  | cons a as ih =>
    simp only [findIn, if_neg (h a (List.mem_cons_self a as))]
    exact ih fun r hr => h r (List.mem_cons_of_mem a hr)

theorem findIn_mem_nodup {es : List EntityRec} {r : EntityRec}
    (hnd : (es.map (fun r => r.id)).Nodup) (hr : r ∈ es) : findIn es r.id = some r := by
  induction es with
  | nil => cases hr
  | cons a as ih =>
    rcases List.mem_cons.mp hr with h | h
    · subst h
      simp [findIn]
    · have hne : a.id ≠ r.id := by
        intro he
        have hmem : r.id ∈ List.map (fun r => r.id) as := List.mem_map_of_mem _ h
        rw [← he] at hmem
        exact (List.nodup_cons.mp hnd).1 hmem
      simp only [findIn, if_neg hne]
      exact ih (List.nodup_cons.mp hnd).2 h

theorem findIn_append_some {as bs : List EntityRec} {i : Nat} {r : EntityRec}
    (h : findIn as i = some r) : findIn (as ++ bs) i = some r := by
  induction as with
  | nil => simp [findIn] at h
  | cons a as ih =>
    by_cases hid : a.id = i
    · simp only [findIn, if_pos hid] at h ⊢
      exact h
    · simp only [findIn, if_neg hid] at h ⊢
      exact ih h

theorem findIn_append_none {as bs : List EntityRec} {i : Nat}
    (h : findIn as i = none) : findIn (as ++ bs) i = findIn bs i := by
  induction as with
  | nil => rfl
  | cons a as ih =>
    by_cases hid : a.id = i
    · simp [findIn, if_pos hid] at h
    · simp only [findIn, if_neg hid] at h ⊢
      exact ih h

theorem findIn_map_id {f : EntityRec → EntityRec} (hf : ∀ r, (f r).id = r.id)
    (es : List EntityRec) (i : Nat) : findIn (es.map f) i = (findIn es i).map f := by
  induction es with
  | nil => rfl
  | cons a as ih =>
    by_cases hid : a.id = i
    · simp [findIn, hf a, hid]
    · simp only [List.map_cons, findIn, hf a, if_neg hid]
      exact ih

theorem findIn_filter_key {p : EntityRec → Bool} {q : Nat → Bool}
    (hpq : ∀ r, p r = q r.id) (es : List EntityRec) (i : Nat) :
    findIn (es.filter p) i = if q i then findIn es i else none := by
  induction es with
  | nil => simp [findIn]
  | cons a as ih =>
    cases hpa : p a with
    | true =>
      rw [List.filter_cons_of_pos hpa]
      by_cases hid : a.id = i
      · have hqi : q i = true := by rw [← hid, ← hpq a]; exact hpa
        simp [findIn, hid, hqi]
      · simp only [findIn, if_neg hid]
        exact ih
    | false =>
      rw [List.filter_cons_of_neg (by simp [hpa])]
      by_cases hid : a.id = i
      · have hqi : q i = false := by rw [← hid, ← hpq a]; exact hpa
        simp [findIn, hid, hqi, ih]
      · rw [ih]
        cases hqi : q i with
        | true => simp [findIn, if_neg hid]
        | false => rfl

/-! ### Field preservation of the per-entity writes -/

theorem markOne_id (cands : List Nat) (r : EntityRec) : (markOne cands r).id = r.id := by
  unfold markOne
  split <;> rfl

theorem markOne_fields (cands : List Nat) (r : EntityRec) :
    (markOne cands r).id = r.id ∧
    (markOne cands r).mesh = r.mesh ∧
    (markOne cands r).aabb = r.aabb ∧
    (markOne cands r).globalTransform = r.globalTransform ∧
    (markOne cands r).transform = r.transform ∧
    (markOne cands r).visibility = r.visibility ∧
    (markOne cands r).debugPrimitive = r.debugPrimitive ∧
    (markOne cands r).children = r.children := by
  unfold markOne
  split <;> simp

theorem markOne_of_mem {cands : List Nat} {r : EntityRec} (h : r.id ∈ cands) :
    markOne cands r = { r with debugPrimitiveParent := true } := by
  unfold markOne
  rw [if_pos h]

theorem markOne_of_not_mem {cands : List Nat} {r : EntityRec} (h : r.id ∉ cands) :
    markOne cands r = r := by
  unfold markOne
  rw [if_neg h]

theorem syncWrite_fields (cfg : Bool) (w : World) (r : EntityRec) :
    (syncWrite cfg w r).id = r.id ∧
    (syncWrite cfg w r).mesh = r.mesh ∧
    (syncWrite cfg w r).aabb = r.aabb ∧
    (syncWrite cfg w r).globalTransform = r.globalTransform ∧
    (syncWrite cfg w r).debugPrimitive = r.debugPrimitive ∧
    (syncWrite cfg w r).debugPrimitiveParent = r.debugPrimitiveParent ∧
    (syncWrite cfg w r).children = r.children := by
  unfold syncWrite
  split
  · split
    · simp
    · split <;> simp
  · simp

theorem syncWrite_id (cfg : Bool) (w : World) (r : EntityRec) :
    (syncWrite cfg w r).id = r.id :=
  (syncWrite_fields cfg w r).1

/-! ### The recursive-despawn closure -/

/-- The dependents relation followed by `despawn_recursive`: `Desc w e d`
holds when `d` is `e` itself or a transitive child of `e`. -/
inductive Desc (w : World) : Nat → Nat → Prop
  | refl (e : Nat) : Desc w e e
  | step {e c d : Nat} {r : EntityRec} (hfind : w.find e = some r) (hc : c ∈ r.children)
      (hcd : Desc w c d) : Desc w e d

theorem descend_succ_some {w : World} {e : Nat} {r : EntityRec}
    (h : w.find e = some r) (fuel : Nat) :
    descend w (fuel + 1) e = e :: r.children.flatMap (descend w fuel) := by
  show (e :: (match w.find e with
      | none => []
      | some r => r.children.flatMap (descend w fuel))) = _
  rw [h]

theorem descend_succ_none {w : World} {e : Nat}
    (h : w.find e = none) (fuel : Nat) : descend w (fuel + 1) e = [e] := by
  show (e :: (match w.find e with
      | none => []
      | some r => r.children.flatMap (descend w fuel))) = _
  rw [h]

theorem self_mem_descend (w : World) (fuel e : Nat) : e ∈ descend w fuel e := by
  cases fuel with
  | zero => simp [descend]
  | succ fuel =>
    cases h : w.find e with
    | none => rw [descend_succ_none h]; simp
    | some r => rw [descend_succ_some h]; exact List.mem_cons_self _ _

theorem mem_descend_sound {w : World} {fuel e x : Nat}
    (h : x ∈ descend w fuel e) : Desc w e x := by
  induction fuel generalizing e with
  | zero =>
    simp only [descend, List.mem_singleton] at h
    subst h
    exact Desc.refl _
  | succ fuel ih =>
    cases hfind : w.find e with
    | none =>
      rw [descend_succ_none hfind] at h
      simp only [List.mem_singleton] at h
      subst h
      exact Desc.refl _
    | some r =>
      rw [descend_succ_some hfind] at h
      rcases List.mem_cons.mp h with h | h
      · subst h
        exact Desc.refl _
      · rcases List.mem_flatMap.mp h with ⟨c, hc, hx⟩
        exact Desc.step hfind hc (ih hx)

theorem descend_mono {w : World} {fuel e x : Nat}
    (h : x ∈ descend w fuel e) : x ∈ descend w (fuel + 1) e := by
  induction fuel generalizing e with
  | zero =>
    simp only [descend, List.mem_singleton] at h
    subst h
    exact self_mem_descend w 1 _
  | succ fuel ih =>
    cases hfind : w.find e with
    | none =>
      rw [descend_succ_none hfind] at h
      rw [descend_succ_none hfind]
      exact h
    | some r =>
      rw [descend_succ_some hfind] at h
      rw [descend_succ_some hfind]
      rcases List.mem_cons.mp h with h | h
      · exact List.mem_cons.mpr (Or.inl h)
      · rcases List.mem_flatMap.mp h with ⟨c, hc, hx⟩
        exact List.mem_cons.mpr (Or.inr (List.mem_flatMap.mpr ⟨c, hc, ih hx⟩))

/-! ### Well-formedness -/

/-- Per-entity well-formedness bounds relative to the allocator cursor `n`:
the id is below the cursor, `Children` edges go from lower to higher ids (a
child is always spawned after its parent) and stay below the cursor, and the
back-reference is below the cursor. -/
def EntityRec.wfAt (r : EntityRec) (n : Nat) : Bool :=
  decide (r.id < n) &&
    r.children.all (fun c => decide (r.id < c) && decide (c < n)) &&
    (match r.debugPrimitive with
     | some t => decide (t < n)
     | none => true)

/-- World well-formedness: live ids are pairwise distinct and every entity
satisfies the allocator bounds. -/
def World.WF (w : World) : Prop :=
  (w.entities.map (fun r => r.id)).Nodup ∧ ∀ r ∈ w.entities, r.wfAt w.nextId = true

instance : DecidablePred World.WF := fun w => by
  unfold World.WF
  infer_instance

theorem wfAt_id_lt {r : EntityRec} {n : Nat} (h : r.wfAt n = true) : r.id < n := by
  unfold EntityRec.wfAt at h
  simp only [Bool.and_eq_true, decide_eq_true_eq] at h
  exact h.1.1

theorem wfAt_child {r : EntityRec} {n c : Nat} (h : r.wfAt n = true)
    (hc : c ∈ r.children) : r.id < c ∧ c < n := by
  unfold EntityRec.wfAt at h
  simp only [Bool.and_eq_true, List.all_eq_true, decide_eq_true_eq] at h
  exact h.1.2 c hc

theorem wfAt_backref {r : EntityRec} {n t : Nat} (h : r.wfAt n = true)
    (ht : r.debugPrimitive = some t) : t < n := by
  unfold EntityRec.wfAt at h
  rw [ht] at h
  simp only [Bool.and_eq_true, decide_eq_true_eq] at h
  exact h.2

theorem wfAt_mono {r : EntityRec} {n m : Nat} (hnm : n ≤ m) (h : r.wfAt n = true) :
    r.wfAt m = true := by
  unfold EntityRec.wfAt at h ⊢
  simp only [Bool.and_eq_true, List.all_eq_true, decide_eq_true_eq] at h ⊢
  refine ⟨⟨lt_of_lt_of_le h.1.1 hnm, fun c hc => ?_⟩, ?_⟩
  · exact ⟨(h.1.2 c hc).1, lt_of_lt_of_le (h.1.2 c hc).2 hnm⟩
  · cases hd : r.debugPrimitive with
    | none => simp
    | some t =>
      rw [hd] at h
      simp only [decide_eq_true_eq] at h ⊢
      exact lt_of_lt_of_le h.2 hnm

/-! ### Candidate-list lemmas -/

theorem mem_candidates {w : World} {t : Nat} :
    t ∈ w.candidates ↔ ∃ r ∈ w.entities, creationCandidate r = true ∧ r.id = t := by
  unfold World.candidates
  constructor
  · intro h
    rcases List.mem_map.mp h with ⟨r, hr, hid⟩
    exact ⟨r, (List.mem_filter.mp hr).1, (List.mem_filter.mp hr).2, hid⟩
  · rintro ⟨r, hr, hc, hid⟩
    exact List.mem_map.mpr ⟨r, List.mem_filter.mpr ⟨hr, hc⟩, hid⟩

theorem candidates_nodup {w : World}
    (hnd : (w.entities.map (fun r => r.id)).Nodup) : w.candidates.Nodup := by
  unfold World.candidates
  exact List.Nodup.sublist ((List.filter_sublist w.entities).map (fun r => r.id)) hnd

theorem candidates_lt {w : World} (hwf : w.WF) {t : Nat} (ht : t ∈ w.candidates) :
    t < w.nextId := by
  rcases mem_candidates.mp ht with ⟨r, hr, _, hid⟩
  exact hid ▸ wfAt_id_lt (hwf.2 r hr)

/-! ### Spawn-buffer lemmas -/

theorem mem_newProxies {cfg : Bool} {base : Nat} {ts : List Nat} {r : EntityRec}
    (h : r ∈ newProxies cfg base ts) :
    ∃ j t, j < ts.length ∧ t ∈ ts ∧ r = spawnProxy cfg (base + j) t := by
  induction ts generalizing base with
  | nil => cases h
  | cons t ts ih =>
    rcases List.mem_cons.mp h with h | h
    · exact ⟨0, t, Nat.succ_pos _, List.mem_cons_self _ _, by simpa using h⟩
    · rcases ih h with ⟨j, t0, hj, ht0, hr⟩
      refine ⟨j + 1, t0, Nat.succ_lt_succ hj, List.mem_cons_of_mem _ ht0, ?_⟩
      rw [hr]
      congr 1
      omega

theorem newProxies_id_ge {cfg : Bool} {base : Nat} {ts : List Nat} {r : EntityRec}
    (h : r ∈ newProxies cfg base ts) : base ≤ r.id := by
  rcases mem_newProxies h with ⟨j, t, _, _, hr⟩
  rw [hr]
  exact Nat.le_add_right _ _

theorem newProxies_find_lt {cfg : Bool} {base : Nat} {ts : List Nat} {i : Nat}
    (hi : i < base) : findIn (newProxies cfg base ts) i = none :=
  findIn_eq_none fun r hr => by
    have := newProxies_id_ge hr
    omega

/-- The decidable "is a proxy of `t`" predicate on one entity record. -/
def isProxyOf (t : Nat) (r : EntityRec) : Bool := decide (r.debugPrimitive = some t)

theorem newProxies_filter_not_mem {cfg : Bool} {base : Nat} {ts : List Nat} {t : Nat}
    (h : t ∉ ts) : (newProxies cfg base ts).filter (isProxyOf t) = [] := by
  induction ts generalizing base with
  | nil => rfl
  | cons t0 ts ih =>
    have hne : t0 ≠ t := fun he => h (he ▸ List.mem_cons_self _ _)
    show List.filter _ (spawnProxy cfg base t0 :: newProxies cfg (base + 1) ts) = []
    rw [List.filter_cons_of_neg]
    · exact ih (fun hm => h (List.mem_cons_of_mem _ hm))
    · simp [isProxyOf, spawnProxy, hne]

theorem newProxies_filter_mem {cfg : Bool} {t : Nat} :
    ∀ (ts : List Nat) (base : Nat), ts.Nodup → t ∈ ts →
      ∃ p, (newProxies cfg base ts).filter (isProxyOf t) = [spawnProxy cfg p t] := by
  intro ts
  induction ts with
  | nil => intro base _ h; cases h
  | cons t0 ts ih =>
    intro base hnd h
    rcases List.mem_cons.mp h with h | h
    · subst h
      refine ⟨base, ?_⟩
      show List.filter _ (spawnProxy cfg base t :: newProxies cfg (base + 1) ts) = _
      rw [List.filter_cons_of_pos (by simp [isProxyOf, spawnProxy]),
        newProxies_filter_not_mem (List.nodup_cons.mp hnd).1]
    · have hne : t0 ≠ t := fun he => (List.nodup_cons.mp hnd).1 (he ▸ h)
      rcases ih (base + 1) (List.nodup_cons.mp hnd).2 h with ⟨p, hp⟩
      refine ⟨p, ?_⟩
      show List.filter _ (spawnProxy cfg base t0 :: newProxies cfg (base + 1) ts) = _
      rw [List.filter_cons_of_neg (by simp [isProxyOf, spawnProxy, hne]), hp]

/-! ### Lookup characterizations of the passes -/

theorem contains_iff {l : List Nat} {i : Nat} : l.contains i = true ↔ i ∈ l :=
  List.elem_iff

theorem add_config (w : World) : (add_aabb_debug_primitives w).config = w.config := rfl

theorem sync_config (w : World) :
    (update_aabb_debug_primitives w).config = w.config := rfl

theorem find_def (w : World) (i : Nat) : w.find i = findIn w.entities i := rfl

theorem add_find_old {w : World} {i : Nat} (hi : i < w.nextId) :
    (add_aabb_debug_primitives w).find i = (w.find i).map (markOne w.candidates) := by
  rw [find_def, find_def]
  show findIn (markParents w.candidates w.entities ++
      newProxies w.config.is_visible w.nextId w.candidates) i = _
  have hmap : findIn (markParents w.candidates w.entities) i =
      (findIn w.entities i).map (markOne w.candidates) :=
    findIn_map_id (markOne_id _) _ _
  cases hfind : findIn w.entities i with
  | none =>
    rw [findIn_append_none (by rw [hmap, hfind]; rfl), newProxies_find_lt hi]
    rfl
  | some r =>
    rw [findIn_append_some (by rw [hmap, hfind]; rfl)]
    rfl

theorem sync_find (w : World) (i : Nat) :
    (update_aabb_debug_primitives w).find i =
      if (w.despawnSet w.orphans).contains i then none
      else (w.find i).map (syncWrite w.config.is_visible w) := by
  rw [find_def, find_def]
  show findIn ((w.entities.map (syncWrite w.config.is_visible w)).filter
      (fun r => !((w.despawnSet w.orphans).contains r.id))) i = _
  rw [findIn_filter_key (q := fun n => !((w.despawnSet w.orphans).contains n))
    (fun r => rfl), findIn_map_id (syncWrite_id _ _)]
  cases h : (w.despawnSet w.orphans).contains i <;> simp [h]

theorem frame_config (w : World) (k : KeyState) :
    (frameCreateThenSync k w).config =
      if k.just_pressed then ⟨!w.config.is_visible⟩ else w.config := rfl

theorem frame_find_old {w : World} {k : KeyState} {i : Nat} (hi : i < w.nextId) :
    (frameCreateThenSync k w).find i =
      if (w.despawnSet w.orphans).contains i then none
      else (w.find i).map
        (fun r => markOne w.candidates (syncWrite w.config.is_visible w r)) := by
  rw [find_def, find_def]
  show findIn ((markParents w.candidates
        (w.entities.map (syncWrite w.config.is_visible w))).filter
        (fun r => !((w.despawnSet w.orphans).contains r.id)) ++
      newProxies w.config.is_visible w.nextId w.candidates) i = _
  have hmap : findIn (markParents w.candidates
      (w.entities.map (syncWrite w.config.is_visible w))) i = (findIn w.entities i).map
      (fun r => markOne w.candidates (syncWrite w.config.is_visible w r)) := by
    unfold markParents
    rw [findIn_map_id (markOne_id _), findIn_map_id (syncWrite_id _ _)]
    cases findIn w.entities i <;> rfl
  have hfk := findIn_filter_key
    (q := fun n => !((w.despawnSet w.orphans).contains n)) (fun r => rfl)
    (markParents w.candidates (w.entities.map (syncWrite w.config.is_visible w))) i
  cases h : (w.despawnSet w.orphans).contains i with
  | true =>
    rw [h] at hfk
    simp only [Bool.not_true, Bool.false_eq_true, if_false] at hfk
    rw [findIn_append_none hfk, newProxies_find_lt hi]
    simp
  | false =>
    rw [h] at hfk
    simp only [Bool.not_false, if_true] at hfk
    rw [hmap] at hfk
    cases hfind : findIn w.entities i with
    | none =>
      rw [findIn_append_none (by rw [hfk, hfind]; rfl), newProxies_find_lt hi]
      simp [hfind]
    | some r =>
      rw [findIn_append_some (by rw [hfk, hfind]; rfl)]
      simp [hfind]

/-! ### Orphans and the despawn set -/

theorem mem_orphans {w : World} {i : Nat} :
    i ∈ w.orphans ↔ ∃ r ∈ w.entities, isOrphanProxy w r = true ∧ r.id = i := by
  unfold World.orphans
  constructor
  · intro h
    rcases List.mem_map.mp h with ⟨r, hr, hid⟩
    exact ⟨r, (List.mem_filter.mp hr).1, (List.mem_filter.mp hr).2, hid⟩
  · rintro ⟨r, hr, ho, hid⟩
    exact List.mem_map.mpr ⟨r, List.mem_filter.mpr ⟨hr, ho⟩, hid⟩

theorem wf_children {w : World} (hwf : w.WF) :
    ∀ r ∈ w.entities, ∀ c ∈ r.children, r.id < c ∧ c < w.nextId :=
  fun r hr _ hc => wfAt_child (hwf.2 r hr) hc

theorem descend_complete {w : World}
    (hch : ∀ r ∈ w.entities, ∀ c ∈ r.children, r.id < c ∧ c < w.nextId)
    {e d : Nat} (hd : Desc w e d) :
    ∀ fuel, w.nextId - e ≤ fuel → d ∈ descend w fuel e := by
  induction hd with
  | refl e => exact fun fuel _ => self_mem_descend w fuel e
  | @step e c d r hfind hc hcd ih =>
    intro fuel hfuel
    have hfind' : findIn w.entities e = some r := hfind
    obtain ⟨hmem, hide⟩ := findIn_some hfind'
    obtain ⟨hlt, hcn⟩ := hch r hmem c hc
    rw [hide] at hlt
    cases fuel with
    | zero => omega
    | succ fuel =>
      rw [descend_succ_some hfind]
      exact List.mem_cons.mpr (Or.inr (List.mem_flatMap.mpr
        ⟨c, hc, ih fuel (by omega)⟩))

theorem desc_root_of_no_parent {w : World} {o e : Nat}
    (hd : Desc w o e) : (∀ r ∈ w.entities, e ∉ r.children) → e = o := by
  induction hd with
  | refl _ => intro _; rfl
  | @step e0 c d r hfind hc hcd ih =>
    intro hnc
    have hd_eq : d = c := ih hnc
    have hr : r ∈ w.entities :=
      (findIn_some (show findIn w.entities e0 = some r from hfind)).1
    exact absurd (hd_eq ▸ hc) (hnc r hr)

theorem orphan_desc_removed {w : World}
    (hch : ∀ r ∈ w.entities, ∀ c ∈ r.children, r.id < c ∧ c < w.nextId)
    {o d : Nat} (ho : o ∈ w.orphans) (hd : Desc w o d) :
    d ∈ w.despawnSet w.orphans :=
  List.mem_flatMap.mpr ⟨o, ho, descend_complete hch hd w.nextId (Nat.sub_le _ _)⟩

theorem orphan_mem_of_record {w : World} {e : Nat} {r : EntityRec}
    (hfind : w.find e = some r) (ho : isOrphanProxy w r = true) : e ∈ w.orphans := by
  obtain ⟨hmem, hid⟩ := findIn_some (show findIn w.entities e = some r from hfind)
  exact mem_orphans.mpr ⟨r, hmem, ho, hid⟩

theorem not_in_despawnSet {w : World}
    (hnd : (w.entities.map (fun r => r.id)).Nodup) {e : Nat} {r : EntityRec}
    (hfind : w.find e = some r) (hno : isOrphanProxy w r = false)
    (hnc : ∀ r0 ∈ w.entities, e ∉ r0.children) :
    e ∉ w.despawnSet w.orphans := by
  intro hmem
  rcases List.mem_flatMap.mp hmem with ⟨o, ho, hdesc⟩
  have heo : e = o := desc_root_of_no_parent (mem_descend_sound hdesc) hnc
  subst heo
  rcases mem_orphans.mp ho with ⟨ro, hro, horo, hid⟩
  have hfr : findIn w.entities ro.id = some ro := findIn_mem_nodup hnd hro
  rw [hid, show findIn w.entities e = some r from hfind] at hfr
  injection hfr with hh
  rw [← hh] at horo
  rw [horo] at hno
  cases hno

/-! ### Evaluating one sync-pass iteration -/

theorem isOrphanProxy_eq {w : World} {r : EntityRec} {t : Nat}
    (hq : inSyncQuery r = true) (ht : r.debugPrimitive = some t) :
    isOrphanProxy w r = (w.syncTarget t).isNone := by
  unfold isOrphanProxy
  rw [hq, ht]
  simp

theorem syncWrite_resolvable {cfg : Bool} {w : World} {r : EntityRec} {t : Nat}
    {a : Aabb} {g : GlobalTransform}
    (hq : inSyncQuery r = true) (ht : r.debugPrimitive = some t)
    (hres : w.syncTarget t = some (a, g)) :
    syncWrite cfg w r = { r with
      visibility := some cfg
      transform := some (Transform.mk (g.translation.add a.center) g.rotation
        (g.scale.mul (a.halfExtents.smul 2))) } := by
  simp only [syncWrite, hq, ht, hres, if_true]

theorem syncWrite_unresolvable {cfg : Bool} {w : World} {r : EntityRec} {t : Nat}
    (hq : inSyncQuery r = true) (ht : r.debugPrimitive = some t)
    (hres : w.syncTarget t = none) :
    syncWrite cfg w r = { r with visibility := some cfg } := by
  simp only [syncWrite, hq, ht, hres, if_true]

theorem syncWrite_not_in_query {cfg : Bool} {w : World} {r : EntityRec}
    (hq : inSyncQuery r = false) : syncWrite cfg w r = r := by
  simp only [syncWrite, hq, Bool.false_eq_true, if_false]

/-! ### Well-formedness preservation -/

theorem markOne_wfAt (c : List Nat) (r : EntityRec) (n : Nat) :
    (markOne c r).wfAt n = r.wfAt n := by
  unfold markOne
  split <;> rfl

theorem markOne_children (c : List Nat) (r : EntityRec) :
    (markOne c r).children = r.children :=
  (markOne_fields c r).2.2.2.2.2.2.2

theorem markOne_backref (c : List Nat) (r : EntityRec) :
    (markOne c r).debugPrimitive = r.debugPrimitive :=
  (markOne_fields c r).2.2.2.2.2.2.1

theorem syncWrite_wfAt (cfg : Bool) (w : World) (r : EntityRec) (n : Nat) :
    (syncWrite cfg w r).wfAt n = r.wfAt n := by
  unfold syncWrite
  split
  · split
    · rfl
    · split <;> rfl
  · rfl

theorem syncWrite_children (cfg : Bool) (w : World) (r : EntityRec) :
    (syncWrite cfg w r).children = r.children :=
  (syncWrite_fields cfg w r).2.2.2.2.2.2

theorem syncWrite_backref (cfg : Bool) (w : World) (r : EntityRec) :
    (syncWrite cfg w r).debugPrimitive = r.debugPrimitive :=
  (syncWrite_fields cfg w r).2.2.2.2.1

theorem syncWrite_marker (cfg : Bool) (w : World) (r : EntityRec) :
    (syncWrite cfg w r).debugPrimitiveParent = r.debugPrimitiveParent :=
  (syncWrite_fields cfg w r).2.2.2.2.2.1

theorem markParents_ids (c : List Nat) (es : List EntityRec) :
    (markParents c es).map (fun r => r.id) = es.map (fun r => r.id) := by
  unfold markParents
  rw [List.map_map]
  exact List.map_congr_left fun r _ => markOne_id c r

theorem syncMap_ids (cfg : Bool) (w : World) (es : List EntityRec) :
    (es.map (syncWrite cfg w)).map (fun r => r.id) = es.map (fun r => r.id) := by
  rw [List.map_map]
  exact List.map_congr_left fun r _ => syncWrite_id cfg w r

theorem newProxies_ids (cfg : Bool) : ∀ (ts : List Nat) (base : Nat),
    (newProxies cfg base ts).map (fun r => r.id) = List.range' base ts.length := by
  intro ts
  induction ts with
  | nil => intro _; rfl
  | cons t ts ih =>
    intro base
    show ((spawnProxy cfg base t :: newProxies cfg (base + 1) ts).map (fun r => r.id)) = _
    rw [List.map_cons, ih (base + 1), List.length_cons, List.range'_succ]
    rfl

theorem spawnProxy_wfAt {cfg : Bool} {pid parentId n : Nat}
    (hp : pid < n) (ht : parentId < n) : (spawnProxy cfg pid parentId).wfAt n = true := by
  unfold spawnProxy EntityRec.wfAt
  simp [hp, ht]

theorem add_WF {w : World} (hwf : w.WF) : (add_aabb_debug_primitives w).WF := by
  obtain ⟨hnd, hb⟩ := hwf
  constructor
  · show (((markParents w.candidates w.entities ++
      newProxies w.config.is_visible w.nextId w.candidates).map (fun r => r.id))).Nodup
    rw [List.map_append, markParents_ids, newProxies_ids]
    refine List.Nodup.append hnd (List.nodup_range' _ _) ?_
    rw [List.disjoint_left]
    intro i hi hmem
    rcases List.mem_map.mp hi with ⟨r, hr, hid⟩
    have hlt := wfAt_id_lt (hb r hr)
    rcases List.mem_range'_1.mp hmem with ⟨hle, _⟩
    omega
  · intro r hr
    show r.wfAt (w.nextId + w.candidates.length) = true
    rcases List.mem_append.mp hr with hr | hr
    · rcases List.mem_map.mp (show r ∈ w.entities.map (markOne w.candidates) from hr)
        with ⟨r0, hr0, he⟩
      rw [← he, markOne_wfAt]
      exact wfAt_mono (Nat.le_add_right _ _) (hb r0 hr0)
    · rcases mem_newProxies hr with ⟨j, t, hj, ht, he⟩
      rw [he]
      refine spawnProxy_wfAt (by omega) ?_
      have := candidates_lt ⟨hnd, hb⟩ ht
      omega

theorem sync_WF {w : World} (hwf : w.WF) : (update_aabb_debug_primitives w).WF := by
  obtain ⟨hnd, hb⟩ := hwf
  constructor
  · show ((((w.entities.map (syncWrite w.config.is_visible w)).filter
      (fun r => !((w.despawnSet w.orphans).contains r.id))).map (fun r => r.id))).Nodup
    refine List.Nodup.sublist ((List.filter_sublist _).map _) ?_
    rw [syncMap_ids]
    exact hnd
  · intro r hr
    have hr2 := (List.mem_filter.mp hr).1
    rcases List.mem_map.mp hr2 with ⟨r0, hr0, he⟩
    rw [← he, syncWrite_wfAt]
    exact hb r0 hr0

theorem toggle_entities (k : KeyState) (w : World) :
    (toggle_visibility k w).entities = w.entities ∧
      (toggle_visibility k w).nextId = w.nextId := by
  unfold toggle_visibility
  split <;> exact ⟨rfl, rfl⟩

theorem toggle_WF {w : World} (hwf : w.WF) (k : KeyState) :
    (toggle_visibility k w).WF := by
  unfold World.WF
  rw [(toggle_entities k w).1, (toggle_entities k w).2]
  exact hwf

theorem frame_WF {w : World} (k : KeyState) (hwf : w.WF) :
    (frameCreateThenSync k w).WF := by
  obtain ⟨hnd, hb⟩ := hwf
  constructor
  · show ((((markParents w.candidates
        (w.entities.map (syncWrite w.config.is_visible w))).filter
        (fun r => !((w.despawnSet w.orphans).contains r.id)) ++
      newProxies w.config.is_visible w.nextId w.candidates).map (fun r => r.id))).Nodup
    rw [List.map_append, newProxies_ids]
    refine List.Nodup.append ?_ (List.nodup_range' _ _) ?_
    · refine List.Nodup.sublist ((List.filter_sublist _).map _) ?_
      rw [markParents_ids, syncMap_ids]
      exact hnd
    · rw [List.disjoint_left]
      intro i hi hmem
      rcases List.mem_map.mp hi with ⟨r, hr, hid⟩
      have hr1 := (List.mem_filter.mp hr).1
      rcases List.mem_map.mp (show r ∈ (w.entities.map
        (syncWrite w.config.is_visible w)).map (markOne w.candidates) from hr1)
        with ⟨r1, hr1m, he1⟩
      rcases List.mem_map.mp hr1m with ⟨r0, hr0, he0⟩
      have hide : r.id = r0.id := by
        rw [← he1, markOne_id, ← he0, syncWrite_id]
      have hlt := wfAt_id_lt (hb r0 hr0)
      rcases List.mem_range'_1.mp hmem with ⟨hle, _⟩
      omega
  · intro r hr
    show r.wfAt (w.nextId + w.candidates.length) = true
    rcases List.mem_append.mp hr with hr | hr
    · have hr1 := (List.mem_filter.mp hr).1
      rcases List.mem_map.mp (show r ∈ (w.entities.map
        (syncWrite w.config.is_visible w)).map (markOne w.candidates) from hr1)
        with ⟨r1, hr1m, he1⟩
      rcases List.mem_map.mp hr1m with ⟨r0, hr0, he0⟩
      rw [← he1, markOne_wfAt, ← he0, syncWrite_wfAt]
      exact wfAt_mono (Nat.le_add_right _ _) (hb r0 hr0)
    · rcases mem_newProxies hr with ⟨j, t, hj, ht, he⟩
      rw [he]
      refine spawnProxy_wfAt (by omega) ?_
      have := candidates_lt ⟨hnd, hb⟩ ht
      omega

theorem frame_children_bound {w : World} (hwf : w.WF) (k : KeyState) {r0 : EntityRec}
    (h : r0 ∈ (frameCreateThenSync k w).entities) {c : Nat} (hc : c ∈ r0.children) :
    c < w.nextId := by
  rcases List.mem_append.mp h with h | h
  · have h1 := (List.mem_filter.mp h).1
    rcases List.mem_map.mp (show r0 ∈ (w.entities.map
      (syncWrite w.config.is_visible w)).map (markOne w.candidates) from h1)
      with ⟨r1, hr1m, he1⟩
    rcases List.mem_map.mp hr1m with ⟨r2, hr2, he0⟩
    rw [← he1, markOne_children, ← he0, syncWrite_children] at hc
    exact (wf_children hwf r2 hr2 c hc).2
  · rcases mem_newProxies h with ⟨j, t, _, _, he⟩
    rw [he] at hc
    cases hc

/-! ### Further helper lemmas -/

theorem syncTarget_none_of_dead {w : World} {t : Nat} (h : w.isLive t = false) :
    w.syncTarget t = none := by
  unfold World.isLive at h
  unfold World.syncTarget
  cases hf : w.find t with
  | none => rfl
  | some r =>
    rw [hf] at h
    simp at h

theorem sync_removes_core {w : World} (hwf : w.WF) {e t : Nat} {r : EntityRec}
    (hfind : w.find e = some r) (ht : r.debugPrimitive = some t)
    (htr : r.transform.isSome = true) (hvis : r.visibility.isSome = true)
    (hfail : w.syncTarget t = none) {d : Nat} (hd : Desc w e d) :
    (update_aabb_debug_primitives w).find d = none := by
  have hq : inSyncQuery r = true := by
    unfold inSyncQuery
    rw [ht, htr, hvis]
    rfl
  have ho : isOrphanProxy w r = true := by
    rw [isOrphanProxy_eq hq ht, hfail]
    rfl
  have he : e ∈ w.orphans := orphan_mem_of_record hfind ho
  have hrem : d ∈ w.despawnSet w.orphans :=
    orphan_desc_removed (wf_children hwf) he hd
  rw [sync_find, if_pos (contains_iff.mpr hrem)]

theorem syncWrite_visibility {cfg : Bool} {w : World} {r : EntityRec}
    (hq : inSyncQuery r = true) : (syncWrite cfg w r).visibility = some cfg := by
  cases hd : r.debugPrimitive with
  | none =>
    unfold inSyncQuery at hq
    rw [hd] at hq
    simp at hq
  | some t =>
    cases hres : w.syncTarget t with
    | none => rw [syncWrite_unresolvable hq hd hres]
    | some ag =>
      obtain ⟨a, g⟩ := ag
      rw [syncWrite_resolvable hq hd hres]

/-! ### Concrete fixtures -/

/-- A concrete marked tracked entity. -/
def sampleTracked : EntityRec :=
  { id := 0
    mesh := true
    aabb := some ⟨⟨1, 2, 3⟩, ⟨4, 5, 6⟩⟩
    globalTransform := some ⟨⟨2, 2, 2⟩, Quat.identity, ⟨10, 20, 30⟩⟩
    transform := some Transform.default
    visibility := some true
    debugPrimitive := none
    debugPrimitiveParent := true
    children := [] }

/-- A concrete proxy back-referencing `sampleTracked`. -/
def sampleProxy : EntityRec := spawnProxy true 1 0

/-- A tracked entity paired with its proxy. -/
def sampleWorld : World := ⟨[sampleTracked, sampleProxy], 2, ⟨true⟩⟩

/-- A tracked entity not yet paired with a proxy (no marker). -/
def freshTracked : EntityRec := { sampleTracked with debugPrimitiveParent := false }

/-- A world holding only the unpaired tracked entity. -/
def freshWorld : World := ⟨[freshTracked], 1, ⟨true⟩⟩

/-- A world holding one orphan proxy: its tracked entity 3 is gone. -/
def orphanWorld : World := ⟨[spawnProxy true 7 3], 8, ⟨true⟩⟩

/-- A proxy whose tracked entity is live but was never marked (its lookup
fails on the `With<DebugPrimitiveParent>` filter). -/
def unmarkedWorld : World := ⟨[freshTracked, spawnProxy true 1 0], 2, ⟨true⟩⟩

/-- The frame input with no key activity. -/
def noKey : KeyState := ⟨false, false⟩

/-! ### Claims -/

/-- C1: for every proxy whose back-referenced tracked entity still resolves
(it is live and carries an `Aabb`, a `GlobalTransform` and the
`DebugPrimitiveParent` marker), one invocation of the synchronization pass
sets the proxy translation to the tracked world translation plus the
bounding-box center (added after decomposition — neither rotated nor scaled),
the proxy scale to the tracked world scale componentwise multiplied by twice
the half-extents, and the proxy rotation to the tracked world rotation
unchanged.  The proxy is in the sync query (it carries `Transform` and
`Visibility`, as every spawned proxy does) and is nobody's child (every proxy
is spawned at the top level). -/
theorem C1_sync_sets_proxy_transform
    (w : World) (e t : Nat) (r : EntityRec) (a : Aabb) (g : GlobalTransform)
    (hnd : (w.entities.map (fun r => r.id)).Nodup)
    (hfind : w.find e = some r) (ht : r.debugPrimitive = some t)
    (htr : r.transform.isSome = true) (hvis : r.visibility.isSome = true)
    (hres : w.syncTarget t = some (a, g))
    (hnc : ∀ r0 ∈ w.entities, e ∉ r0.children) :
    (update_aabb_debug_primitives w).find e = some { r with
      visibility := some w.config.is_visible
      transform := some (Transform.mk (g.translation.add a.center) g.rotation
        (g.scale.mul (a.halfExtents.smul 2))) } := by
  have hq : inSyncQuery r = true := by
    unfold inSyncQuery
    rw [ht, htr, hvis]
    rfl
  have hno : isOrphanProxy w r = false := by
    rw [isOrphanProxy_eq hq ht, hres]
    rfl
  have hnr := not_in_despawnSet hnd hfind hno hnc
  rw [sync_find, if_neg (fun hc => hnr (contains_iff.mp hc)), hfind]
  show some (syncWrite w.config.is_visible w r) = _
  rw [syncWrite_resolvable hq ht hres]

/-- C1 witness: in `sampleWorld` the proxy ends the pass with translation
`(10,20,30) + (1,2,3)`, scale `(2,2,2) * ((4,5,6) * 2)` and rotation kept. -/
theorem C1_sync_sets_proxy_transform_witness :
    (update_aabb_debug_primitives sampleWorld).find 1 = some { sampleProxy with
      visibility := some true
      transform := some (Transform.mk ((V3.mk 10 20 30).add (V3.mk 1 2 3))
        Quat.identity ((V3.mk 2 2 2).mul ((V3.mk 4 5 6).smul 2))) } :=
  C1_sync_sets_proxy_transform sampleWorld 1 0 sampleProxy ⟨⟨1, 2, 3⟩, ⟨4, 5, 6⟩⟩
    ⟨⟨2, 2, 2⟩, Quat.identity, ⟨10, 20, 30⟩⟩ (by decide) (by decide) (by decide)
    (by decide) (by decide) (by decide) (by decide)

/-- C2: a proxy whose tracked entity no longer exists when the sync pass runs
is removed together with all of its transitive children (the recursive,
silent despawn), and a proxy whose tracked entity still resolves is not
removed (stated for proxies that are nobody's child, which holds for every
spawned proxy). -/
theorem C2_sync_despawns_orphans (w : World) (hwf : w.WF) :
    (∀ e r t, w.find e = some r → r.debugPrimitive = some t →
      r.transform.isSome = true → r.visibility.isSome = true →
      w.isLive t = false →
      (update_aabb_debug_primitives w).find e = none ∧
        ∀ d, Desc w e d → (update_aabb_debug_primitives w).find d = none) ∧
    (∀ e r t, w.find e = some r → r.debugPrimitive = some t →
      w.syncTarget t ≠ none → (∀ r0 ∈ w.entities, e ∉ r0.children) →
      (update_aabb_debug_primitives w).find e ≠ none) := by
  constructor
  · intro e r t hfind ht htr hvis hdead
    have hfail : w.syncTarget t = none := syncTarget_none_of_dead hdead
    exact ⟨sync_removes_core hwf hfind ht htr hvis hfail (Desc.refl e),
      fun d hd => sync_removes_core hwf hfind ht htr hvis hfail hd⟩
  · intro e r t hfind ht hres hnc
    have hno : isOrphanProxy w r = false := by
      unfold isOrphanProxy
      cases hq : inSyncQuery r with
      | false => rfl
      | true =>
        rw [ht]
        show (w.syncTarget t).isNone = false
        cases hst : w.syncTarget t with
        | none => exact absurd hst hres
        | some ag => rfl
    have hnr := not_in_despawnSet hwf.1 hfind hno hnc
    rw [sync_find, if_neg (fun hc => hnr (contains_iff.mp hc)), hfind]
    exact fun h => Option.noConfusion h

/-- C2 witness: in `orphanWorld` the orphan proxy 7 is gone after the pass. -/
theorem C2_sync_despawns_orphans_witness :
    (update_aabb_debug_primitives orphanWorld).find 7 = none :=
  ((C2_sync_despawns_orphans orphanWorld (by decide)).1 7 (spawnProxy true 7 3) 3
    (by decide) (by decide) (by decide) (by decide) (by decide)).1

/-- C6: a not-pressed→pressed edge on the space key makes the toggle pass
flip the configuration boolean exactly once; with no edge this frame (key
merely held down, or not pressed) the pass leaves the world unchanged. -/
theorem C6_toggle_flips_on_edge (k : KeyState) (w : World) :
    (k.just_pressed = true →
      toggle_visibility k w = { w with config := ⟨!w.config.is_visible⟩ }) ∧
    (k.just_pressed = false → toggle_visibility k w = w) := by
  refine ⟨fun h => ?_, fun h => ?_⟩
  · unfold toggle_visibility
    rw [if_pos h]
  · unfold toggle_visibility
    rw [if_neg (by simp [h])]

/-- C6 witness: one edge flips the sample config from visible to hidden. -/
theorem C6_toggle_flips_on_edge_witness :
    toggle_visibility ⟨true, true⟩ sampleWorld =
      { sampleWorld with config := ⟨!sampleWorld.config.is_visible⟩ } :=
  (C6_toggle_flips_on_edge ⟨true, true⟩ sampleWorld).1 rfl

/-- C7: every proxy that survives a sync pass has its visibility flag set to
the configuration's current value, unconditionally. -/
theorem C7_sync_sets_visibility (w : World) (e : Nat) (r r2 : EntityRec)
    (hfind : w.find e = some r) (hp : r.debugPrimitive.isSome = true)
    (htr : r.transform.isSome = true) (hvis : r.visibility.isSome = true)
    (hsurv : (update_aabb_debug_primitives w).find e = some r2) :
    r2.visibility = some w.config.is_visible := by
  have hq : inSyncQuery r = true := by
    unfold inSyncQuery
    rw [hp, htr, hvis]
    rfl
  rw [sync_find] at hsurv
  cases hc : (w.despawnSet w.orphans).contains e with
  | true =>
    rw [if_pos hc] at hsurv
    cases hsurv
  | false =>
    rw [if_neg (by rw [hc]; exact fun h => Bool.noConfusion h), hfind] at hsurv
    injection hsurv with h2
    rw [← h2]
    exact syncWrite_visibility hq

/-- C7 witness: the surviving sample proxy carries the config value. -/
theorem C7_sync_sets_visibility_witness :
    ({ sampleProxy with
      visibility := some true
      transform := some (Transform.mk ((V3.mk 10 20 30).add (V3.mk 1 2 3))
        Quat.identity ((V3.mk 2 2 2).mul ((V3.mk 4 5 6).smul 2))) }
      : EntityRec).visibility = some true :=
  C7_sync_sets_visibility sampleWorld 1 sampleProxy _ (by decide) (by decide)
    (by decide) (by decide) (by decide)

/-- C8: the overlay configuration's `is_visible` boolean defaults to `true`
(`impl Default for DebugPrimitivesConfig`), before any toggle pass runs. -/
theorem C8_default_config_visible : DebugPrimitivesConfig.default.is_visible = true := rfl

/-- C10: the sync pass despawns a proxy (recursively, exactly as in the
destroyed-entity case) whenever its back-reference lookup fails for any
reason: the tracked entity is dead, or it is live but lacks its `Aabb`, its
`GlobalTransform`, or its `DebugPrimitiveParent` marker. -/
theorem C10_sync_despawns_on_any_lookup_failure (w : World) (hwf : w.WF)
    (e t : Nat) (r : EntityRec)
    (hfind : w.find e = some r) (ht : r.debugPrimitive = some t)
    (htr : r.transform.isSome = true) (hvis : r.visibility.isSome = true)
    (hfail : w.syncTarget t = none) :
    (update_aabb_debug_primitives w).find e = none ∧
      ∀ d, Desc w e d → (update_aabb_debug_primitives w).find d = none :=
  ⟨sync_removes_core hwf hfind ht htr hvis hfail (Desc.refl e),
    fun _ hd => sync_removes_core hwf hfind ht htr hvis hfail hd⟩

/-- C10 witness: in `unmarkedWorld` the tracked entity is live with an `Aabb`
and a `GlobalTransform` but no marker, and its proxy is still despawned. -/
theorem C10_sync_despawns_on_any_lookup_failure_witness :
    (update_aabb_debug_primitives unmarkedWorld).find 1 = none :=
  (C10_sync_despawns_on_any_lookup_failure unmarkedWorld (by decide) 1 0
    (spawnProxy true 1 0) (by decide) (by decide) (by decide) (by decide)
    (by decide)).1

/-- C5 counterexample: the claim says a proxy created in a frame is
synchronized within that same frame.  In `freshWorld` (one unpaired tracked
entity) one whole frame — both passes run, creation before sync, with the
engine's end-of-stage command-buffer flush — leaves the freshly spawned proxy
with the default transform, not the value synchronized from its tracked
entity. -/
theorem C5_same_frame_sync_counterexample :
    (frameCreateThenSync noKey freshWorld).find 1 = some (spawnProxy true 1 0) ∧
    (spawnProxy true 1 0).transform = some Transform.default ∧
    Transform.default ≠ Transform.mk ((V3.mk 10 20 30).add (V3.mk 1 2 3))
      Quat.identity ((V3.mk 2 2 2).mul ((V3.mk 4 5 6).smul 2)) := by
  decide

/-! ### Frame-level lemmas for the ordering claim -/

theorem frame_tracked_marked {w : World} {t : Nat} {r : EntityRec} (hwf : w.WF)
    (hfind : w.find t = some r) (hcand : creationCandidate r = true)
    (hnc : ∀ r0 ∈ w.entities, t ∉ r0.children) (k : KeyState) :
    (frameCreateThenSync k w).find t = some { r with debugPrimitiveParent := true } := by
  obtain ⟨hmem, hid⟩ := findIn_some (show findIn w.entities t = some r from hfind)
  have hlt : t < w.nextId := hid ▸ wfAt_id_lt (hwf.2 r hmem)
  have hq : inSyncQuery r = false := by
    unfold creationCandidate at hcand
    unfold inSyncQuery
    cases hdp : r.debugPrimitive with
    | some u => rw [hdp] at hcand; simp at hcand
    | none => rfl
  have hno : isOrphanProxy w r = false := by
    unfold isOrphanProxy
    rw [hq]
    rfl
  have hnr := not_in_despawnSet hwf.1 hfind hno hnc
  rw [frame_find_old hlt, if_neg (fun hc => hnr (contains_iff.mp hc)), hfind]
  show some (markOne w.candidates (syncWrite w.config.is_visible w r)) = _
  rw [syncWrite_not_in_query hq, markOne_of_mem]
  rw [hid]
  exact mem_candidates.mpr ⟨r, hmem, hcand, hid⟩

theorem frame_syncTarget {w : World} {t : Nat} {r : EntityRec} {a : Aabb}
    {g : GlobalTransform} (hwf : w.WF)
    (hfind : w.find t = some r) (hcand : creationCandidate r = true)
    (ha : r.aabb = some a) (hg : r.globalTransform = some g)
    (hnc : ∀ r0 ∈ w.entities, t ∉ r0.children) (k : KeyState) :
    (frameCreateThenSync k w).syncTarget t = some (a, g) := by
  unfold World.syncTarget
  rw [frame_tracked_marked hwf hfind hcand hnc k]
  simp [ha, hg]

/-- C5 amended: both passes run every frame, but the code registers them with
no ordering constraint and all `Commands` are applied only at the end of the
update stage, so a proxy created in frame `N` still has its default transform
when frame `N` ends and is first synchronized by the sync pass of frame
`N + 1`: two whole frames after a state in which the tracked entity was an
unpaired creation candidate, the proxy spawned for it carries the transform
synchronized from the tracked entity's `GlobalTransform` and `Aabb`. -/
theorem C5_created_proxy_synced_next_frame
    (w : World) (t p : Nat) (r : EntityRec) (a : Aabb) (g : GlobalTransform)
    (hwf : w.WF)
    (hfind : w.find t = some r) (hcand : creationCandidate r = true)
    (ha : r.aabb = some a) (hg : r.globalTransform = some g)
    (hnc : ∀ r0 ∈ w.entities, t ∉ r0.children)
    (hple : w.nextId ≤ p)
    (hp : (frameCreateThenSync noKey w).find p =
      some (spawnProxy w.config.is_visible p t)) :
    (frameCreateThenSync noKey (frameCreateThenSync noKey w)).find p =
      some { spawnProxy w.config.is_visible p t with
        transform := some (Transform.mk (g.translation.add a.center) g.rotation
          (g.scale.mul (a.halfExtents.smul 2))) } := by
  set w1 := frameCreateThenSync noKey w with hw1
  have hwf1 : w1.WF := frame_WF noKey hwf
  have hcfg1 : w1.config = w.config := rfl
  have hmem1 := (findIn_some (show findIn w1.entities p =
    some (spawnProxy w.config.is_visible p t) from hp)).1
  have hplt : p < w1.nextId := wfAt_id_lt (hwf1.2 _ hmem1)
  have hres1 : w1.syncTarget t = some (a, g) :=
    frame_syncTarget hwf hfind hcand ha hg hnc noKey
  have hq : inSyncQuery (spawnProxy w.config.is_visible p t) = true := rfl
  have hno : isOrphanProxy w1 (spawnProxy w.config.is_visible p t) = false := by
    rw [isOrphanProxy_eq hq rfl, hres1]
    rfl
  have hnc1 : ∀ r0 ∈ w1.entities, p ∉ r0.children := by
    intro r0 h0 hc
    have := frame_children_bound hwf noKey h0 hc
    omega
  have hnr1 := not_in_despawnSet hwf1.1 hp hno hnc1
  have hpnc : p ∉ w1.candidates := by
    intro hmemc
    rcases mem_candidates.mp hmemc with ⟨rc, hrc, hcandc, hidc⟩
    have h1 : findIn w1.entities rc.id = some rc := findIn_mem_nodup hwf1.1 hrc
    rw [hidc, show findIn w1.entities p =
      some (spawnProxy w.config.is_visible p t) from hp] at h1
    injection h1 with h1
    rw [← h1] at hcandc
    simp [creationCandidate, spawnProxy] at hcandc
  rw [frame_find_old hplt, if_neg (fun hc => hnr1 (contains_iff.mp hc)), hp]
  show some (markOne w1.candidates (syncWrite w1.config.is_visible w1
    (spawnProxy w.config.is_visible p t))) = _
  rw [syncWrite_resolvable hq rfl hres1, markOne_of_not_mem]
  · rw [hcfg1]
    rfl
  · rw [show (({ spawnProxy w.config.is_visible p t with
      visibility := some w1.config.is_visible
      transform := some (Transform.mk (g.translation.add a.center) g.rotation
        (g.scale.mul (a.halfExtents.smul 2))) } : EntityRec).id) = p from rfl]
    exact hpnc

/-- C5 amended witness: in `freshWorld` the proxy spawned by the first frame
carries the synchronized transform at the end of the second frame. -/
theorem C5_created_proxy_synced_next_frame_witness :
    (frameCreateThenSync noKey (frameCreateThenSync noKey freshWorld)).find 1 =
      some { spawnProxy true 1 0 with
        transform := some (Transform.mk ((V3.mk 10 20 30).add (V3.mk 1 2 3))
          Quat.identity ((V3.mk 2 2 2).mul ((V3.mk 4 5 6).smul 2))) } :=
  C5_created_proxy_synced_next_frame freshWorld 0 1 freshTracked
    ⟨⟨1, 2, 3⟩, ⟨4, 5, 6⟩⟩ ⟨⟨2, 2, 2⟩, Quat.identity, ⟨10, 20, 30⟩⟩ (by decide)
    (by decide) (by decide) (by decide) (by decide) (by decide) (by decide)
    (by decide)

/-! ### The creation pass creates exactly one proxy -/

/-- The live proxies back-referencing tracked entity `t`. -/
def proxiesFor (w : World) (t : Nat) : List EntityRec :=
  w.entities.filter (isProxyOf t)

theorem markParents_proxiesFor (c : List Nat) (t : Nat) (es : List EntityRec) :
    (markParents c es).filter (isProxyOf t) =
      (es.filter (isProxyOf t)).map (markOne c) := by
  unfold markParents
  rw [List.filter_map]
  congr 1
  refine List.filter_congr fun r _ => ?_
  show isProxyOf t (markOne c r) = isProxyOf t r
  unfold isProxyOf
  rw [markOne_backref]

/-- C3: for every tracked entity (it carries an `Aabb`) that has neither a
proxy nor the `DebugPrimitiveParent` marker at the start of a creation pass,
one invocation leaves it with exactly one proxy; that proxy's visibility flag
equals the configuration's current `is_visible` value, its transform is still
the default, it back-references the tracked entity, and the tracked entity
now carries the marker. -/
theorem C3_creation_pass_creates_one_proxy (w : World) (t : Nat) (r : EntityRec)
    (hwf : w.WF) (hfind : w.find t = some r) (hcand : creationCandidate r = true)
    (hnop : proxiesFor w t = []) :
    (proxiesFor (add_aabb_debug_primitives w) t).length = 1 ∧
    (∀ r2 ∈ proxiesFor (add_aabb_debug_primitives w) t,
      r2.visibility = some w.config.is_visible ∧ r2.debugPrimitive = some t ∧
      r2.transform = some Transform.default) ∧
    (add_aabb_debug_primitives w).find t =
      some { r with debugPrimitiveParent := true } := by
  obtain ⟨hmem, hid⟩ := findIn_some (show findIn w.entities t = some r from hfind)
  have hlt : t < w.nextId := hid ▸ wfAt_id_lt (hwf.2 r hmem)
  have htc : t ∈ w.candidates := mem_candidates.mpr ⟨r, hmem, hcand, hid⟩
  obtain ⟨p, hp⟩ :=
    newProxies_filter_mem (w.candidates) w.nextId (candidates_nodup hwf.1) htc
  have hchar : proxiesFor (add_aabb_debug_primitives w) t =
      [spawnProxy w.config.is_visible p t] := by
    show (markParents w.candidates w.entities ++
      newProxies w.config.is_visible w.nextId w.candidates).filter (isProxyOf t) = _
    rw [List.filter_append, markParents_proxiesFor,
      show w.entities.filter (isProxyOf t) = [] from hnop, hp]
    rfl
  refine ⟨by rw [hchar]; rfl, ?_, ?_⟩
  · intro r2 h2
    rw [hchar] at h2
    rcases List.mem_cons.mp h2 with h2 | h2
    · subst h2
      exact ⟨rfl, rfl, rfl⟩
    · cases h2
  · rw [add_find_old hlt, hfind]
    show some (markOne w.candidates r) = _
    rw [markOne_of_mem (by rw [hid]; exact htc)]

/-- C3 witness: in `freshWorld` one creation pass gives tracked entity 0
exactly one proxy. -/
theorem C3_creation_pass_creates_one_proxy_witness :
    (proxiesFor (add_aabb_debug_primitives freshWorld) 0).length = 1 :=
  (C3_creation_pass_creates_one_proxy freshWorld 0 freshTracked (by decide)
    (by decide) (by decide) (by decide)).1

/-! ### Reachable states and the proxy invariants -/

/-- At most one live proxy back-references any given tracked entity. -/
def AtMostOneProxy (w : World) : Prop :=
  ∀ t, (proxiesFor w t).length ≤ 1

/-- Every live entity referenced by some proxy carries the
`DebugPrimitiveParent` marker. -/
def ProxyRefsMarked (w : World) : Prop :=
  ∀ r ∈ w.entities, ∀ t, r.debugPrimitive = some t →
    ∀ rt, w.find t = some rt → rt.debugPrimitiveParent = true

/-- No proxy back-references an entity that itself carries a back-reference:
there is never a proxy of a proxy. -/
def NoProxyOfProxy (w : World) : Prop :=
  ∀ r ∈ w.entities, ∀ t, r.debugPrimitive = some t →
    ∀ rt, w.find t = some rt → rt.debugPrimitive = none

/-- The inductive invariant carried across steps. -/
def Inv (w : World) : Prop :=
  w.WF ∧ AtMostOneProxy w ∧ ProxyRefsMarked w ∧ NoProxyOfProxy w

/-- One step of the system: one of the three overlay passes, or one of the
external engine/scene actions the overlay observes — spawning a plain entity
(fresh id, no back-reference, no marker, no children), despawning an entity,
or attaching an `Aabb` to a mesh-carrying entity (Bevy's `calculate_bounds`). -/
inductive Step : World → World → Prop
  | create (w : World) : Step w (add_aabb_debug_primitives w)
  | sync (w : World) : Step w (update_aabb_debug_primitives w)
  | toggle (w : World) (k : KeyState) : Step w (toggle_visibility k w)
  | extSpawn (w : World) (r : EntityRec) (hid : r.id = w.nextId)
      (hdp : r.debugPrimitive = none) (hmk : r.debugPrimitiveParent = false)
      (hch : r.children = []) :
      Step w ⟨w.entities ++ [r], w.nextId + 1, w.config⟩
  | extDespawn (w : World) (i : Nat) :
      Step w ⟨w.entities.filter (fun r => !(decide (r.id = i))), w.nextId, w.config⟩
  | extAddAabb (w : World) (i : Nat) (a : Aabb) :
      Step w ⟨w.entities.map (fun r =>
        if decide (r.id = i) && r.mesh then { r with aabb := some a } else r),
        w.nextId, w.config⟩

/-- Initial states: well-formed worlds from before the overlay plugin ever
ran — no back-references and no markers anywhere. -/
def InitState (w : World) : Prop :=
  w.WF ∧ ∀ r ∈ w.entities, r.debugPrimitive = none ∧ r.debugPrimitiveParent = false

instance : DecidablePred InitState := fun w => by
  unfold InitState
  infer_instance

/-- Reachability from an initial state under `Step`. -/
def Reach : World → World → Prop := Relation.ReflTransGen Step

/-! ### Invariant helper lemmas -/

theorem candidate_no_backref {r : EntityRec} (h : creationCandidate r = true) :
    r.debugPrimitive = none := by
  unfold creationCandidate at h
  cases hd : r.debugPrimitive with
  | none => rfl
  | some u => rw [hd] at h; simp at h

theorem candidate_record_of_mem {w : World}
    (hnd : (w.entities.map (fun r => r.id)).Nodup) {t : Nat} (ht : t ∈ w.candidates)
    {rt : EntityRec} (hfind : w.find t = some rt) : creationCandidate rt = true := by
  rcases mem_candidates.mp ht with ⟨rc, hrc, hcand, hidc⟩
  have h1 : findIn w.entities rc.id = some rc := findIn_mem_nodup hnd hrc
  rw [hidc, show findIn w.entities t = some rt from hfind] at h1
  injection h1 with h1
  rw [← h1] at hcand
  exact hcand

theorem markOne_marker_true {c : List Nat} {r : EntityRec}
    (h : r.debugPrimitiveParent = true) : (markOne c r).debugPrimitiveParent = true := by
  unfold markOne
  split
  · rfl
  · exact h

theorem markOne_marker_of_mem {c : List Nat} {r : EntityRec} (h : r.id ∈ c) :
    (markOne c r).debugPrimitiveParent = true := by
  rw [markOne_of_mem h]

theorem filter_isProxyOf_map {f : EntityRec → EntityRec}
    (hf : ∀ r, (f r).debugPrimitive = r.debugPrimitive) (t : Nat) (es : List EntityRec) :
    (es.map f).filter (isProxyOf t) = (es.filter (isProxyOf t)).map f := by
  rw [List.filter_map]
  congr 1
  refine List.filter_congr fun r _ => ?_
  show isProxyOf t (f r) = isProxyOf t r
  unfold isProxyOf
  rw [hf]

theorem mem_add_entities {w : World} {r2 : EntityRec}
    (h : r2 ∈ (add_aabb_debug_primitives w).entities) :
    (∃ r0 ∈ w.entities, r2 = markOne w.candidates r0) ∨
    (∃ j t0, j < w.candidates.length ∧ t0 ∈ w.candidates ∧
      r2 = spawnProxy w.config.is_visible (w.nextId + j) t0) := by
  rcases List.mem_append.mp h with h | h
  · left
    rcases List.mem_map.mp (show r2 ∈ w.entities.map (markOne w.candidates) from h)
      with ⟨r0, h0, he⟩
    exact ⟨r0, h0, he.symm⟩
  · right
    rcases mem_newProxies h with ⟨j, t0, hj, ht0, he⟩
    exact ⟨j, t0, hj, ht0, he⟩

/-! ### The creation pass preserves the invariant -/

theorem add_AtMostOne {w : World} (hinv : Inv w) :
    AtMostOneProxy (add_aabb_debug_primitives w) := by
  obtain ⟨hwf, hamo, hmarked, hnpp⟩ := hinv
  intro t
  show ((markParents w.candidates w.entities ++
    newProxies w.config.is_visible w.nextId w.candidates).filter (isProxyOf t)).length ≤ 1
  rw [List.filter_append, List.length_append, markParents_proxiesFor]
  by_cases htc : t ∈ w.candidates
  · obtain ⟨p, hp⟩ :=
      newProxies_filter_mem w.candidates w.nextId (candidates_nodup hwf.1) htc
    rw [hp]
    have hold : w.entities.filter (isProxyOf t) = [] := by
      rcases mem_candidates.mp htc with ⟨rc, hrc, hcand, hidc⟩
      rw [List.filter_eq_nil_iff]
      intro r0 hr0 hp0
      have hb : r0.debugPrimitive = some t := of_decide_eq_true hp0
      have hfind : w.find t = some rc := by
        have h1 := findIn_mem_nodup hwf.1 hrc
        rw [hidc] at h1
        exact h1
      have hmk := hmarked r0 hr0 t hb rc hfind
      unfold creationCandidate at hcand
      rw [hmk] at hcand
      simp at hcand
    rw [hold]
    rfl
  · rw [newProxies_filter_not_mem htc]
    rw [show ((w.entities.filter (isProxyOf t)).map (markOne w.candidates)).length =
      (w.entities.filter (isProxyOf t)).length from List.length_map _ _]
    simpa using hamo t

theorem add_RefsMarked {w : World} (hinv : Inv w) :
    ProxyRefsMarked (add_aabb_debug_primitives w) := by
  obtain ⟨hwf, hamo, hmarked, hnpp⟩ := hinv
  intro r2 hr2 t hb rt2 hfind2
  rcases mem_add_entities hr2 with ⟨r0, h0, he⟩ | ⟨j, t0, hj, ht0, he⟩
  · have hb0 : r0.debugPrimitive = some t := by
      rw [he, markOne_backref] at hb
      exact hb
    have hlt : t < w.nextId := wfAt_backref (hwf.2 r0 h0) hb0
    rw [add_find_old hlt] at hfind2
    cases hf : w.find t with
    | none => rw [hf] at hfind2; cases hfind2
    | some rt0 =>
      rw [hf] at hfind2
      injection hfind2 with h2
      rw [← h2]
      exact markOne_marker_true (hmarked r0 h0 t hb0 rt0 hf)
  · have hbt : t0 = t := by
      rw [he] at hb
      injection hb
    subst hbt
    have hlt : t0 < w.nextId := candidates_lt hwf ht0
    rw [add_find_old hlt] at hfind2
    cases hf : w.find t0 with
    | none => rw [hf] at hfind2; cases hfind2
    | some rt0 =>
      rw [hf] at hfind2
      injection hfind2 with h2
      rw [← h2]
      have hid0 : rt0.id = t0 :=
        (findIn_some (show findIn w.entities t0 = some rt0 from hf)).2
      exact markOne_marker_of_mem (by rw [hid0]; exact ht0)

theorem add_NoPP {w : World} (hinv : Inv w) :
    NoProxyOfProxy (add_aabb_debug_primitives w) := by
  obtain ⟨hwf, hamo, hmarked, hnpp⟩ := hinv
  intro r2 hr2 t hb rt2 hfind2
  rcases mem_add_entities hr2 with ⟨r0, h0, he⟩ | ⟨j, t0, hj, ht0, he⟩
  · have hb0 : r0.debugPrimitive = some t := by
      rw [he, markOne_backref] at hb
      exact hb
    have hlt : t < w.nextId := wfAt_backref (hwf.2 r0 h0) hb0
    rw [add_find_old hlt] at hfind2
    cases hf : w.find t with
    | none => rw [hf] at hfind2; cases hfind2
    | some rt0 =>
      rw [hf] at hfind2
      injection hfind2 with h2
      rw [← h2, markOne_backref]
      exact hnpp r0 h0 t hb0 rt0 hf
  · have hbt : t0 = t := by
      rw [he] at hb
      injection hb
    subst hbt
    have hlt : t0 < w.nextId := candidates_lt hwf ht0
    rw [add_find_old hlt] at hfind2
    cases hf : w.find t0 with
    | none => rw [hf] at hfind2; cases hfind2
    | some rt0 =>
      rw [hf] at hfind2
      injection hfind2 with h2
      rw [← h2, markOne_backref]
      exact candidate_no_backref (candidate_record_of_mem hwf.1 ht0 hf)

theorem add_Inv {w : World} (hinv : Inv w) : Inv (add_aabb_debug_primitives w) :=
  ⟨add_WF hinv.1, add_AtMostOne hinv, add_RefsMarked hinv, add_NoPP hinv⟩

/-! ### The sync pass preserves the invariant -/

theorem sync_Inv {w : World} (hinv : Inv w) : Inv (update_aabb_debug_primitives w) := by
  obtain ⟨hwf, hamo, hmarked, hnpp⟩ := hinv
  refine ⟨sync_WF hwf, ?_, ?_, ?_⟩
  · intro t
    show (((w.entities.map (syncWrite w.config.is_visible w)).filter
      (fun r => !((w.despawnSet w.orphans).contains r.id))).filter
        (isProxyOf t)).length ≤ 1
    rw [List.filter_comm,
      filter_isProxyOf_map (syncWrite_backref w.config.is_visible w) t]
    refine le_trans (List.length_filter_le _ _) ?_
    rw [List.length_map]
    exact hamo t
  · intro r2 hr2 t hb rt2 hfind2
    have hr3 := (List.mem_filter.mp hr2).1
    rcases List.mem_map.mp hr3 with ⟨r0, h0, he⟩
    have hb0 : r0.debugPrimitive = some t := by
      rw [← he, syncWrite_backref] at hb
      exact hb
    rw [sync_find] at hfind2
    cases hc : (w.despawnSet w.orphans).contains t with
    | true => rw [if_pos hc] at hfind2; cases hfind2
    | false =>
      rw [if_neg (by rw [hc]; exact fun h => Bool.noConfusion h)] at hfind2
      cases hf : w.find t with
      | none => rw [hf] at hfind2; cases hfind2
      | some rt0 =>
        rw [hf] at hfind2
        injection hfind2 with h2
        rw [← h2, syncWrite_marker]
        exact hmarked r0 h0 t hb0 rt0 hf
  · intro r2 hr2 t hb rt2 hfind2
    have hr3 := (List.mem_filter.mp hr2).1
    rcases List.mem_map.mp hr3 with ⟨r0, h0, he⟩
    have hb0 : r0.debugPrimitive = some t := by
      rw [← he, syncWrite_backref] at hb
      exact hb
    rw [sync_find] at hfind2
    cases hc : (w.despawnSet w.orphans).contains t with
    | true => rw [if_pos hc] at hfind2; cases hfind2
    | false =>
      rw [if_neg (by rw [hc]; exact fun h => Bool.noConfusion h)] at hfind2
      cases hf : w.find t with
      | none => rw [hf] at hfind2; cases hfind2
      | some rt0 =>
        rw [hf] at hfind2
        injection hfind2 with h2
        rw [← h2, syncWrite_backref]
        exact hnpp r0 h0 t hb0 rt0 hf

/-! ### The remaining steps preserve the invariant -/

theorem toggle_Inv {w : World} (hinv : Inv w) (k : KeyState) :
    Inv (toggle_visibility k w) := by
  unfold toggle_visibility
  split
  · exact hinv
  · exact hinv

theorem spawn_Inv {w : World} (hinv : Inv w) {r : EntityRec}
    (hid : r.id = w.nextId) (hdp : r.debugPrimitive = none)
    (hmk : r.debugPrimitiveParent = false) (hch : r.children = []) :
    Inv ⟨w.entities ++ [r], w.nextId + 1, w.config⟩ := by
  obtain ⟨⟨hnd, hb⟩, hamo, hmarked, hnpp⟩ := hinv
  refine ⟨⟨?_, ?_⟩, ?_, ?_, ?_⟩
  · show ((w.entities ++ [r]).map (fun r => r.id)).Nodup
    rw [List.map_append]
    refine List.Nodup.append hnd (List.nodup_singleton _) ?_
    rw [List.disjoint_left]
    intro i hi hmem
    rcases List.mem_map.mp hi with ⟨r0, h0, hid0⟩
    have hlt := wfAt_id_lt (hb r0 h0)
    simp only [List.map_cons, List.map_nil, List.mem_singleton] at hmem
    rw [hid] at hmem
    omega
  · intro r0 h0
    show r0.wfAt (w.nextId + 1) = true
    rcases List.mem_append.mp h0 with h0 | h0
    · exact wfAt_mono (Nat.le_succ _) (hb r0 h0)
    · rw [List.mem_singleton] at h0
      subst h0
      unfold EntityRec.wfAt
      rw [hch, hdp, hid]
      simp
  · intro t
    show ((w.entities ++ [r]).filter (isProxyOf t)).length ≤ 1
    rw [List.filter_append,
      show [r].filter (isProxyOf t) = [] by simp [isProxyOf, hdp],
      List.append_nil]
    exact hamo t
  · intro r2 hr2 t hb2 rt2 hfind2
    have h2 : findIn (w.entities ++ [r]) t = some rt2 := hfind2
    rcases List.mem_append.mp hr2 with hr2 | hr2
    · have hlt : t < w.nextId := wfAt_backref (hb r2 hr2) hb2
      cases hf : findIn w.entities t with
      | none =>
        rw [findIn_append_none hf] at h2
        unfold findIn at h2
        rw [if_neg (by rw [hid]; omega)] at h2
        cases h2
      | some rt0 =>
        rw [findIn_append_some hf] at h2
        injection h2 with h2
        rw [← h2]
        exact hmarked r2 hr2 t hb2 rt0 hf
    · rw [List.mem_singleton] at hr2
      subst hr2
      rw [hdp] at hb2
      cases hb2
  · intro r2 hr2 t hb2 rt2 hfind2
    have h2 : findIn (w.entities ++ [r]) t = some rt2 := hfind2
    rcases List.mem_append.mp hr2 with hr2 | hr2
    · have hlt : t < w.nextId := wfAt_backref (hb r2 hr2) hb2
      cases hf : findIn w.entities t with
      | none =>
        rw [findIn_append_none hf] at h2
        unfold findIn at h2
        rw [if_neg (by rw [hid]; omega)] at h2
        cases h2
      | some rt0 =>
        rw [findIn_append_some hf] at h2
        injection h2 with h2
        rw [← h2]
        exact hnpp r2 hr2 t hb2 rt0 hf
    · rw [List.mem_singleton] at hr2
      subst hr2
      rw [hdp] at hb2
      cases hb2

theorem despawn_Inv {w : World} (hinv : Inv w) (i : Nat) :
    Inv ⟨w.entities.filter (fun r => !(decide (r.id = i))), w.nextId, w.config⟩ := by
  obtain ⟨⟨hnd, hb⟩, hamo, hmarked, hnpp⟩ := hinv
  refine ⟨⟨?_, ?_⟩, ?_, ?_, ?_⟩
  · show (((w.entities.filter (fun r => !(decide (r.id = i)))).map
      (fun r => r.id))).Nodup
    exact List.Nodup.sublist ((List.filter_sublist _).map _) hnd
  · intro r0 h0
    exact hb r0 (List.mem_filter.mp h0).1
  · intro t
    show (((w.entities.filter (fun r => !(decide (r.id = i)))).filter
      (isProxyOf t))).length ≤ 1
    rw [List.filter_comm]
    exact le_trans (List.length_filter_le _ _) (hamo t)
  · intro r2 hr2 t hb2 rt2 hfind2
    have h2 : findIn (w.entities.filter (fun r => !(decide (r.id = i)))) t =
      some rt2 := hfind2
    obtain ⟨hmemf, hidf⟩ := findIn_some h2
    have hf : w.find t = some rt2 := by
      have h3 := findIn_mem_nodup hnd (List.mem_filter.mp hmemf).1
      rw [hidf] at h3
      exact h3
    exact hmarked r2 (List.mem_filter.mp hr2).1 t hb2 rt2 hf
  · intro r2 hr2 t hb2 rt2 hfind2
    have h2 : findIn (w.entities.filter (fun r => !(decide (r.id = i)))) t =
      some rt2 := hfind2
    obtain ⟨hmemf, hidf⟩ := findIn_some h2
    have hf : w.find t = some rt2 := by
      have h3 := findIn_mem_nodup hnd (List.mem_filter.mp hmemf).1
      rw [hidf] at h3
      exact h3
    exact hnpp r2 (List.mem_filter.mp hr2).1 t hb2 rt2 hf

theorem addAabb_Inv {w : World} (hinv : Inv w) (i : Nat) (a : Aabb) :
    Inv ⟨w.entities.map (fun r =>
      if decide (r.id = i) && r.mesh then { r with aabb := some a } else r),
      w.nextId, w.config⟩ := by
  obtain ⟨⟨hnd, hb⟩, hamo, hmarked, hnpp⟩ := hinv
  have hfid : ∀ r : EntityRec,
      (if decide (r.id = i) && r.mesh then { r with aabb := some a } else r).id =
        r.id := by
    intro r
    split <;> rfl
  have hfb : ∀ r : EntityRec,
      (if decide (r.id = i) && r.mesh then { r with aabb := some a } else
        r).debugPrimitive = r.debugPrimitive := by
    intro r
    split <;> rfl
  have hfm : ∀ r : EntityRec,
      (if decide (r.id = i) && r.mesh then { r with aabb := some a } else
        r).debugPrimitiveParent = r.debugPrimitiveParent := by
    intro r
    split <;> rfl
  have hfw : ∀ (r : EntityRec) (n : Nat),
      (if decide (r.id = i) && r.mesh then { r with aabb := some a } else
        r).wfAt n = r.wfAt n := by
    intro r n
    split <;> rfl
  refine ⟨⟨?_, ?_⟩, ?_, ?_, ?_⟩
  · show (((w.entities.map (fun r =>
      if decide (r.id = i) && r.mesh then { r with aabb := some a } else r)).map
      (fun r => r.id))).Nodup
    rw [List.map_map]
    rw [show ((fun r => r.id) ∘ fun r =>
        if decide (r.id = i) && r.mesh then { r with aabb := some a } else r) =
        (fun r : EntityRec => r.id) from funext fun r => hfid r]
    exact hnd
  · intro r0 h0
    rcases List.mem_map.mp h0 with ⟨r1, h1, he⟩
    rw [← he, hfw]
    exact hb r1 h1
  · intro t
    show (((w.entities.map (fun r =>
      if decide (r.id = i) && r.mesh then { r with aabb := some a } else r)).filter
      (isProxyOf t))).length ≤ 1
    rw [filter_isProxyOf_map hfb t, List.length_map]
    exact hamo t
  · intro r2 hr2 t hb2 rt2 hfind2
    rcases List.mem_map.mp hr2 with ⟨r0, h0, he⟩
    have hb0 : r0.debugPrimitive = some t := by
      rw [← he, hfb] at hb2
      exact hb2
    have h2 : findIn (w.entities.map (fun r =>
      if decide (r.id = i) && r.mesh then { r with aabb := some a } else r)) t =
      some rt2 := hfind2
    rw [findIn_map_id hfid] at h2
    cases hf : findIn w.entities t with
    | none => rw [hf] at h2; cases h2
    | some rt0 =>
      rw [hf] at h2
      injection h2 with h2
      rw [← h2, hfm]
      exact hmarked r0 h0 t hb0 rt0 hf
  · intro r2 hr2 t hb2 rt2 hfind2
    rcases List.mem_map.mp hr2 with ⟨r0, h0, he⟩
    have hb0 : r0.debugPrimitive = some t := by
      rw [← he, hfb] at hb2
      exact hb2
    have h2 : findIn (w.entities.map (fun r =>
      if decide (r.id = i) && r.mesh then { r with aabb := some a } else r)) t =
      some rt2 := hfind2
    rw [findIn_map_id hfid] at h2
    cases hf : findIn w.entities t with
    | none => rw [hf] at h2; cases h2
    | some rt0 =>
      rw [hf] at h2
      injection h2 with h2
      rw [← h2, hfb]
      exact hnpp r0 h0 t hb0 rt0 hf

theorem Step_Inv {w w2 : World} (h : Step w w2) (hinv : Inv w) : Inv w2 := by
  cases h with
  | create => exact add_Inv hinv
  | sync => exact sync_Inv hinv
  | toggle k => exact toggle_Inv hinv k
  | extSpawn r hid hdp hmk hch => exact spawn_Inv hinv hid hdp hmk hch
  | extDespawn i => exact despawn_Inv hinv i
  | extAddAabb i a => exact addAabb_Inv hinv i a

theorem init_Inv {w : World} (h0 : InitState w) : Inv w := by
  obtain ⟨hwf, hcl⟩ := h0
  refine ⟨hwf, ?_, ?_, ?_⟩
  · intro t
    show ((w.entities.filter (isProxyOf t))).length ≤ 1
    rw [show w.entities.filter (isProxyOf t) = [] from List.filter_eq_nil_iff.mpr ?_]
    · exact Nat.zero_le 1
    · intro r hr hp
      have hb : r.debugPrimitive = some t := of_decide_eq_true hp
      rw [(hcl r hr).1] at hb
      cases hb
  · intro r hr t hb
    rw [(hcl r hr).1] at hb
    cases hb
  · intro r hr t hb
    rw [(hcl r hr).1] at hb
    cases hb

theorem Reach_Inv {w0 w : World} (h0 : InitState w0) (hr : Reach w0 w) : Inv w := by
  induction hr with
  | refl => exact init_Inv h0
  | tail hr1 hstep ih => exact Step_Inv hstep ih

/-! ### Idempotence of the creation pass -/

theorem markParents_nil (es : List EntityRec) : markParents [] es = es := by
  unfold markParents
  rw [show es.map (markOne []) = es.map id from
    List.map_congr_left fun r _ => markOne_of_not_mem (List.not_mem_nil _),
    List.map_id]

theorem add_of_no_candidates {w : World} (hc : w.candidates = []) :
    add_aabb_debug_primitives w = w := by
  unfold add_aabb_debug_primitives
  rw [hc]
  show World.mk (markParents [] w.entities ++ newProxies w.config.is_visible
    w.nextId []) (w.nextId + ([] : List Nat).length) w.config = w
  rw [markParents_nil]
  show World.mk (w.entities ++ []) (w.nextId + 0) w.config = w
  rw [List.append_nil, Nat.add_zero]

theorem add_candidates_nil (w : World) :
    (add_aabb_debug_primitives w).candidates = [] := by
  unfold World.candidates
  rw [show (add_aabb_debug_primitives w).entities.filter creationCandidate = []
    from List.filter_eq_nil_iff.mpr ?_]
  · rfl
  · intro r2 hr2 hc
    rcases mem_add_entities hr2 with ⟨r0, h0, he⟩ | ⟨j, t0, hj, ht0, he⟩
    · by_cases hmem : r0.id ∈ w.candidates
      · rw [he, markOne_of_mem hmem] at hc
        unfold creationCandidate at hc
        simp at hc
      · rw [he, markOne_of_not_mem hmem] at hc
        exact hmem (mem_candidates.mpr ⟨r0, h0, hc, rfl⟩)
    · rw [he] at hc
      unfold creationCandidate spawnProxy at hc
      simp at hc

theorem add_idempotent (w : World) :
    add_aabb_debug_primitives (add_aabb_debug_primitives w) =
      add_aabb_debug_primitives w :=
  add_of_no_candidates (add_candidates_nil w)

/-! ### Claims C4 and C9 -/

/-- C4: running the creation pass twice in succession (no tracked entities
added in between) produces no proxies beyond the first run — the second run
is the identity on the first run's output, for every world; and in every
state reachable from an initial state under the passes and the external
engine actions, each tracked entity has at most one live proxy. -/
theorem C4_creation_idempotent_and_at_most_one_proxy (w0 w : World)
    (h0 : InitState w0) (hr : Reach w0 w) :
    add_aabb_debug_primitives (add_aabb_debug_primitives w) =
      add_aabb_debug_primitives w ∧ AtMostOneProxy w :=
  ⟨add_idempotent w, (Reach_Inv h0 hr).2.1⟩

/-- C4 witness: one creation step from `freshWorld`; the second run adds
nothing. -/
theorem C4_creation_idempotent_and_at_most_one_proxy_witness :
    add_aabb_debug_primitives (add_aabb_debug_primitives
      (add_aabb_debug_primitives freshWorld)) =
      add_aabb_debug_primitives (add_aabb_debug_primitives freshWorld) :=
  (C4_creation_idempotent_and_at_most_one_proxy freshWorld
    (add_aabb_debug_primitives freshWorld) (by decide)
    (Relation.ReflTransGen.single (Step.create freshWorld))).1

/-- C9: a proxy is never itself treated as a tracked entity: the creation
query statically excludes every entity bearing a `DebugPrimitive`
back-reference, and in every reachable state — even after proxies (which
carry meshes) acquire an `Aabb` through the engine — no proxy back-references
an entity that itself carries a back-reference, so no proxy-of-a-proxy ever
exists. -/
theorem C9_no_proxy_of_proxy (w0 w : World) (h0 : InitState w0) (hr : Reach w0 w) :
    NoProxyOfProxy w ∧
      ∀ r : EntityRec, creationCandidate r = true → r.debugPrimitive = none :=
  ⟨(Reach_Inv h0 hr).2.2.2, fun _ hc => candidate_no_backref hc⟩

/-- C9 witness: after a creation step and the engine attaching an `Aabb` to
the freshly spawned (mesh-carrying) proxy, there is still no proxy of a
proxy. -/
theorem C9_no_proxy_of_proxy_witness :
    NoProxyOfProxy ⟨(add_aabb_debug_primitives freshWorld).entities.map (fun r =>
      if decide (r.id = 1) && r.mesh then { r with aabb := some ⟨⟨0, 0, 0⟩, ⟨1, 1, 1⟩⟩ }
      else r),
      (add_aabb_debug_primitives freshWorld).nextId,
      (add_aabb_debug_primitives freshWorld).config⟩ :=
  (C9_no_proxy_of_proxy freshWorld _ (by decide)
    (Relation.ReflTransGen.tail
      (Relation.ReflTransGen.single (Step.create freshWorld))
      (Step.extAddAabb (add_aabb_debug_primitives freshWorld) 1
        ⟨⟨0, 0, 0⟩, ⟨1, 1, 1⟩⟩))).1

end BevyDebugPrimitives
